import Mathlib

/-!
Verification of the ExcaliDash real-time collaboration core: a shallow
embedding of the client sync logic (`SharedView`: element version tracking,
render-loop buffering, autosave gating, cursor throttling) and of the
server's Socket.IO room registry and relay handlers (`backend/src/index.ts`),
together with proofs about reconciliation, presence and permission gating.
-/

/-- A drawing element as seen by the collaboration core: a stable `id`,
optional `version` / `versionNonce` (the code reads missing fields as 0 via
`?? 0`), an `isDeleted` tombstone flag, and an opaque `payload` standing for
the geometry/style/content fields the sync logic never inspects. -/
structure Element where
  id : String
  version : Option Nat
  versionNonce : Option Nat
  isDeleted : Bool
  payload : Nat
deriving DecidableEq

/-- `element.version ?? 0`. -/
def verOf (e : Element) : Nat := e.version.getD 0

/-- `element.versionNonce ?? 0`. -/
def nonceOf (e : Element) : Nat := e.versionNonce.getD 0

/-- Modelled from the spec: the body of `reconcileElements` lives in the
frontend module `utils/sync`, which is not among the provided sources (only
its caller in `SharedView` is). Per spec section 4.3, for a local element the
matching remote element wins iff its version is strictly greater, or the
versions are equal and the `versionNonce` differs. -/
def shouldPreferRemote (l r : Element) : Bool :=
  if verOf l < verOf r then true
  else if verOf r = verOf l then decide (nonceOf r ≠ nonceOf l)
  else false

/-- Modelled from the spec: resolution of one local element against the
remote batch — look up the remote element with the same id and keep the
winner of `shouldPreferRemote`, or keep the local element if no remote
element carries its id. -/
def applyRemote (R : List Element) (l : Element) : Element :=
  match R.find? (fun r => r.id == l.id) with
  | some r => if shouldPreferRemote l r then r else l
  | none => l

/-- Modelled from the spec: `reconcileElements (utils/sync)` merges the local
ordered sequence with a remote batch — the local ordering is the base
sequence, conflicts are resolved in place by version comparison, and remote
elements whose id is absent locally are appended (spec section 4.3). -/
def reconcileElements (L R : List Element) : List Element :=
  L.map (applyRemote R) ++ R.filter (fun r => !(L.any (fun l => l.id == r.id)))

theorem find_by_id {R : List Element} {r : Element}
    (hnd : (R.map Element.id).Nodup) (hr : r ∈ R) :
    R.find? (fun x => x.id == r.id) = some r := by
  induction R with
  | nil => cases hr
  | cons h t ih =>
    rw [List.map_cons, List.nodup_cons] at hnd
    rcases List.mem_cons.mp hr with rfl | hmem
    · exact List.find?_cons_of_pos _ (by simp)
    · have hne : h.id ≠ r.id := by
        intro he
        exact hnd.1 (he ▸ List.mem_map_of_mem Element.id hmem)
      rw [List.find?_cons_of_neg _ (by simpa using hne)]
      exact ih hnd.2 hmem

theorem applyRemote_of_find_none {R : List Element} {l : Element}
    (hf : R.find? (fun r => r.id == l.id) = none) : applyRemote R l = l := by
  unfold applyRemote
  rw [hf]

theorem applyRemote_of_find_some {R : List Element} {l r : Element}
    (hf : R.find? (fun r => r.id == l.id) = some r) :
    applyRemote R l = if shouldPreferRemote l r then r else l := by
  unfold applyRemote
  rw [hf]

theorem id_of_find_some {R : List Element} {l r : Element}
    (hf : R.find? (fun r => r.id == l.id) = some r) : r.id = l.id := by
  have h2 := List.find?_some hf
  simpa using h2

theorem applyRemote_id (R : List Element) (l : Element) :
    (applyRemote R l).id = l.id := by
  cases hf : R.find? (fun r => r.id == l.id) with
  | none => rw [applyRemote_of_find_none hf]
  | some r =>
    rw [applyRemote_of_find_some hf]
    by_cases hp : shouldPreferRemote l r = true
    · simp [hp, id_of_find_some hf]
    · simp [hp]

theorem shouldPreferRemote_self (r : Element) : shouldPreferRemote r r = false := by
  simp [shouldPreferRemote]

theorem applyRemote_idem {R : List Element}
    (l : Element) : applyRemote R (applyRemote R l) = applyRemote R l := by
  cases hf : R.find? (fun r => r.id == l.id) with
  | none =>
    rw [applyRemote_of_find_none hf, applyRemote_of_find_none hf]
  | some r =>
    have hid : r.id = l.id := id_of_find_some hf
    have hrmem : r ∈ R := List.mem_of_find?_eq_some hf
    by_cases hp : shouldPreferRemote l r = true
    · have h1 : applyRemote R l = r := by rw [applyRemote_of_find_some hf]; simp [hp]
      rw [h1]
      have hf2 : R.find? (fun x => x.id == r.id) = some r := by
        rw [hid]; exact hf
      rw [applyRemote_of_find_some hf2, shouldPreferRemote_self]
      simp
    · have h1 : applyRemote R l = l := by rw [applyRemote_of_find_some hf]; simp [hp]
      rw [h1, h1]

/-- C1: for every call `reconcile(localElements, remoteElements)` and every
element id present in both inputs, the winner sits at the local element's
original position and is chosen by version comparison (remote wins strictly
greater; on equal versions remote wins iff its versionNonce differs; smaller
remote versions are discarded), and every remote element whose id is absent
locally is appended after the local sequence. -/
theorem reconcile_per_id (L R : List Element) (hnd : (R.map Element.id).Nodup) :
    (∀ (i : Nat) (l r : Element), L[i]? = some l → r ∈ R → r.id = l.id →
      (verOf l < verOf r → (reconcileElements L R)[i]? = some r) ∧
      (verOf r = verOf l →
        (reconcileElements L R)[i]? = some (if nonceOf r ≠ nonceOf l then r else l)) ∧
      (verOf r < verOf l → (reconcileElements L R)[i]? = some l)) ∧
    (∀ r ∈ R, (∀ l ∈ L, l.id ≠ r.id) →
      r ∈ (reconcileElements L R).drop L.length) := by
  constructor
  · intro i l r hL hr hid
    have hlt : i < L.length := (List.getElem?_eq_some.mp hL).1
    have hres : (reconcileElements L R)[i]? = some (applyRemote R l) := by
      unfold reconcileElements
      rw [List.getElem?_append_left (by simpa using hlt), List.getElem?_map, hL]
      rfl
    have hf : R.find? (fun x => x.id == l.id) = some r := by
      rw [← hid]
      exact find_by_id hnd hr
    refine ⟨?_, ?_, ?_⟩
    · intro h
      rw [hres, applyRemote_of_find_some hf]
      simp [shouldPreferRemote, h]
    · intro h
      have h1 : ¬ verOf l < verOf r := by omega
      rw [hres, applyRemote_of_find_some hf]
      simp [shouldPreferRemote, h1, h]
    · intro h
      have h1 : ¬ verOf l < verOf r := by omega
      have h2 : ¬ verOf r = verOf l := by omega
      rw [hres, applyRemote_of_find_some hf]
      simp [shouldPreferRemote, h1, h2]
  · intro r hr habs
    unfold reconcileElements
    rw [List.drop_left' (by simp)]
    refine List.mem_filter.mpr ⟨hr, ?_⟩
    simp only [Bool.not_eq_true']
    rw [List.any_eq_false]
    intro l hl
    simpa using habs l hl

/-- Local element of the C1 witness scenario: id "a" at version 5, nonce 10. -/
def elA5 : Element :=
  { id := "a", version := some 5, versionNonce := some 10, isDeleted := false, payload := 1 }

/-- Remote element of the C1 witness scenario: id "a" at version 6. -/
def remA6 : Element :=
  { id := "a", version := some 6, versionNonce := some 99, isDeleted := false, payload := 2 }

theorem reconcile_per_id_witness :
    (reconcileElements [elA5] [remA6])[0]? = some remA6 := by
  have h := reconcile_per_id [elA5] [remA6] (by decide)
  exact (h.1 0 elA5 remA6 (by decide) (by decide) (by decide)).1 (by decide)

/-- C5: reconciliation is idempotent — re-applying the same remote batch (a
set, i.e. at most one remote element per id) to an already reconciled
sequence changes nothing. -/
theorem reconcile_idem (L R : List Element) (hnd : (R.map Element.id).Nodup) :
    reconcileElements (reconcileElements L R) R = reconcileElements L R := by
  have hA : ∀ m ∈ reconcileElements L R, applyRemote R m = m := by
    intro m hm
    rcases List.mem_append.mp hm with hmap | hflt
    · rcases List.mem_map.mp hmap with ⟨l, _, rfl⟩
      exact applyRemote_idem l
    · have hmem : m ∈ R := List.mem_of_mem_filter hflt
      rw [applyRemote_of_find_some (find_by_id hnd hmem), shouldPreferRemote_self]
      simp
  have hB : R.filter
      (fun r => !((reconcileElements L R).any (fun l => l.id == r.id))) = [] := by
    rw [List.filter_eq_nil_iff]
    intro r hr
    simp only [Bool.not_eq_true', Bool.not_eq_false]
    rw [List.any_eq_true]
    by_cases hc : L.any (fun l => l.id == r.id) = true
    · obtain ⟨l, hl, hlid⟩ := List.any_eq_true.mp hc
      refine ⟨applyRemote R l, List.mem_append_left _ (List.mem_map_of_mem _ hl), ?_⟩
      rw [applyRemote_id]
      exact hlid
    · have hc' : L.any (fun l => l.id == r.id) = false := by
        exact Bool.not_eq_true _ ▸ eq_false_of_ne_true hc
      refine ⟨r, List.mem_append_right _ (List.mem_filter.mpr ⟨hr, by rw [hc']; rfl⟩), ?_⟩
      simp
  have hstep : reconcileElements (reconcileElements L R) R =
      (reconcileElements L R).map (applyRemote R) ++ R.filter
        (fun r => !((reconcileElements L R).any (fun l => l.id == r.id))) := rfl
  rw [hstep, hB, List.append_nil]
  exact (List.map_congr_left hA).trans (List.map_id' _)

theorem reconcile_idem_witness :
    reconcileElements (reconcileElements [elA5] [remA6]) [remA6] =
      reconcileElements [elA5] [remA6] :=
  reconcile_idem [elA5] [remA6] (by decide)

/-- One step of the render loop's buffer deduplication (`SharedView`
`renderLoop`): insert a buffered element into the id-keyed map, keeping the
entry with the strictly greater version (`(el.version ?? 0) >
(existing.version ?? 0)`); a JS `Map.set` on an existing key keeps the key's
insertion position. -/
def dedupStep (acc : List Element) (el : Element) : List Element :=
  match acc.find? (fun e => e.id == el.id) with
  | none => acc ++ [el]
  | some ex =>
    if verOf ex < verOf el then
      acc.map (fun e => if e.id == el.id then el else e)
    else acc

/-- The render loop's dedup pass over all buffered element-update messages,
keeping the latest version per id. -/
def dedupBuffer (buf : List Element) : List Element := buf.foldl dedupStep []

/-- The client state touched by one render-loop tick: the live scene and the
remote element-update buffer. -/
structure TickResult where
  scene : List Element
  buffer : List Element
deriving DecidableEq

/-- One tick of `renderLoop` in `SharedView`, restricted to element updates:
if the buffer is non-empty it is cleared, the buffered updates are
deduplicated, elements whose id is in the local selection are filtered out,
and the survivors (if any) are reconciled into the scene. -/
def renderTick (buffer : List Element) (selectedIds : List String)
    (scene : List Element) : TickResult :=
  if buffer.isEmpty then { scene := scene, buffer := buffer }
  else
    let remotes := (dedupBuffer buffer).filter (fun el => !(selectedIds.contains el.id))
    if remotes.isEmpty then { scene := scene, buffer := [] }
    else { scene := reconcileElements scene remotes, buffer := [] }

/-- Scene element of the C2 scenario: id "y" at version 1. -/
def elY1 : Element :=
  { id := "y", version := some 1, versionNonce := some 1, isDeleted := false, payload := 0 }

/-- Buffered remote update of the C2 scenario: id "y" at version 2. -/
def elY2 : Element :=
  { id := "y", version := some 2, versionNonce := some 2, isDeleted := false, payload := 5 }

/-- C2 fails on the code: a remote update for a selected id is dropped, not
retained. With "y" selected, the tick leaves the scene at version 1 and
empties the buffer, so the next tick — after "y" left the selection — has
nothing to apply and the scene still lacks the version-2 update. -/
theorem selection_update_discarded :
    (renderTick [elY2] ["y"] [elY1]).scene = [elY1] ∧
    (renderTick [elY2] ["y"] [elY1]).buffer = [] ∧
    (renderTick (renderTick [elY2] ["y"] [elY1]).buffer []
      (renderTick [elY2] ["y"] [elY1]).scene).scene = [elY1] := by
  decide

/-- C2 amended: while the local user has an element id selected, a remote
update for that id is excluded from the batch applied to the live scene and
the buffer is cleared — the update is discarded, not retained, so once the id
leaves the selection the scene entry is still the old one and a later tick
with the (now empty) buffer applies nothing. -/
theorem selection_update_excluded (buf : List Element) (sel : List String)
    (scene : List Element) (i : Nat) (l : Element)
    (hl : scene[i]? = some l) (hsel : sel.contains l.id = true) :
    (renderTick buf sel scene).buffer = [] ∧
    (renderTick buf sel scene).scene[i]? = some l ∧
    (∀ (sel2 : List String) (sc : List Element),
      renderTick [] sel2 sc = { scene := sc, buffer := [] }) := by
  have hempty : ∀ (sel2 : List String) (sc : List Element),
      renderTick [] sel2 sc = { scene := sc, buffer := [] } := by
    intro sel2 sc
    simp [renderTick]
  refine ⟨?_, ?_, hempty⟩
  · by_cases hb : buf.isEmpty = true
    · rw [renderTick, if_pos hb]
      simpa using hb
    · rw [renderTick, if_neg hb]
      by_cases hr : ((dedupBuffer buf).filter
          (fun el => !(sel.contains el.id))).isEmpty = true
      · simp only [hr, if_pos]
      · simp only [hr, if_neg, Bool.false_eq_true, not_false_iff]
  · have hkeep : ∀ remotes : List Element,
        (∀ x ∈ remotes, sel.contains x.id = false) →
        (reconcileElements scene remotes)[i]? = some l := by
      intro remotes hrem
      have hlt : i < scene.length := (List.getElem?_eq_some.mp hl).1
      have hf : remotes.find? (fun r => r.id == l.id) = none := by
        rw [List.find?_eq_none]
        intro x hx
        have hxne : x.id ≠ l.id := by
          intro he
          have h1 := hrem x hx
          rw [he, hsel] at h1
          exact absurd h1 (by simp)
        simpa using hxne
      unfold reconcileElements
      rw [List.getElem?_append_left (by simpa using hlt), List.getElem?_map, hl]
      simp [applyRemote_of_find_none hf]
    by_cases hb : buf.isEmpty = true
    · rw [renderTick, if_pos hb]
      exact hl
    · rw [renderTick, if_neg hb]
      by_cases hr : ((dedupBuffer buf).filter
          (fun el => !(sel.contains el.id))).isEmpty = true
      · simp only [hr, if_pos]
        exact hl
      · simp only [hr, if_neg, Bool.false_eq_true, not_false_iff]
        apply hkeep
        intro x hx
        have := (List.mem_filter.mp hx).2
        simpa using this

theorem selection_update_excluded_witness :
    (renderTick [elY2] ["y"] [elY1]).buffer = [] ∧
    (renderTick [elY2] ["y"] [elY1]).scene[0]? = some elY1 :=
  let h := selection_update_excluded [elY2] ["y"] [elY1] 0 elY1 (by decide) (by decide)
  ⟨h.1, h.2.1⟩

/-- The element version tracker (`elementVersionMap` in `SharedView`): an
id-keyed map to the last seen `(version, versionNonce)` pair, kept as an
association list (a JS `Map` keeps first-insertion key order). -/
abbrev VMap := List (String × (Nat × Nat))

/-- JS `Map.set`: overwrite the entry for an existing key in place, or append
a new key at the end. -/
def vmSet : VMap → String → Nat × Nat → VMap
  | [], k, v => [(k, v)]
  | p :: t, k, v => if p.1 == k then (k, v) :: t else p :: vmSet t k v

/-- `recordElementVersion` in `SharedView`: unconditionally store
`(element.version ?? 0, element.versionNonce ?? 0)` under `element.id`. -/
def recordElementVersion (m : VMap) (el : Element) : VMap :=
  vmSet m el.id (verOf el, nonceOf el)

/-- `hasElementChanged` in `SharedView`: if the id was never seen, record it
and report a change; otherwise report a change iff the stored pair differs
from the element's current `(version ?? 0, versionNonce ?? 0)`. Returns the
flag together with the (possibly mutated) tracker state. -/
def hasElementChanged (m : VMap) (el : Element) : Bool × VMap :=
  match m.lookup el.id with
  | none => (true, recordElementVersion m el)
  | some (v, n) => (v != verOf el || n != nonceOf el, m)

theorem lookup_vmSet (m : VMap) (k : String) (v : Nat × Nat) :
    (vmSet m k v).lookup k = some v := by
  induction m with
  | nil => simp [vmSet]
  | cons p t ih =>
    obtain ⟨pk, pv⟩ := p
    by_cases hp : pk = k
    · simp [vmSet, hp]
    · have hp1 : (pk == k) = false := by simpa using hp
      have hp2 : (k == pk) = false := by
        simp only [beq_eq_false_iff_ne] at hp1 ⊢
        exact fun h => hp1 h.symm
      simp [vmSet, hp1, List.lookup_cons, hp2, ih]

/-- C3: `hasChanged` returns true and records the element's pair when the id
was never seen; on a seen id it returns true iff the stored pair differs from
the current pair (missing fields read as 0) and leaves the tracker untouched;
in particular a second call on an unmodified element whose pair the first
call recorded returns false. -/
theorem hasElementChanged_spec (m : VMap) (el : Element) :
    (m.lookup el.id = none →
      hasElementChanged m el = (true, recordElementVersion m el) ∧
      (hasElementChanged m el).2.lookup el.id = some (verOf el, nonceOf el)) ∧
    (∀ v n, m.lookup el.id = some (v, n) →
      ((hasElementChanged m el).1 = true ↔ (v, n) ≠ (verOf el, nonceOf el)) ∧
      (hasElementChanged m el).2 = m) ∧
    (m.lookup el.id = none →
      (hasElementChanged (hasElementChanged m el).2 el).1 = false) := by
  refine ⟨?_, ?_, ?_⟩
  · intro hnone
    constructor
    · unfold hasElementChanged
      rw [hnone]
    · unfold hasElementChanged
      rw [hnone]
      exact lookup_vmSet m el.id (verOf el, nonceOf el)
  · intro v n hsome
    unfold hasElementChanged
    rw [hsome]
    constructor
    · simp only [Bool.or_eq_true, bne_iff_ne, ne_eq, Prod.mk.injEq]
      tauto
    · rfl
  · intro hnone
    have h1 : (hasElementChanged m el).2 = recordElementVersion m el := by
      unfold hasElementChanged
      rw [hnone]
    rw [h1]
    unfold hasElementChanged
    rw [recordElementVersion, lookup_vmSet m el.id (verOf el, nonceOf el)]
    simp

theorem hasElementChanged_spec_witness :
    (hasElementChanged [] elA5 = (true, recordElementVersion [] elA5) ∧
      (hasElementChanged [] elA5).2.lookup elA5.id = some (verOf elA5, nonceOf elA5)) ∧
    ((hasElementChanged (hasElementChanged [] elA5).2 elA5).1 = false) := by
  have h := hasElementChanged_spec [] elA5
  exact ⟨h.1 rfl, h.2.2 rfl⟩

/-- The Excalidraw app state fields relevant to the autosave coordinator: the
three persisted fields plus transient UI state the projection must drop. -/
structure AppState where
  viewBackgroundColor : String
  currentItemFontFamily : Nat
  gridSize : Nat
  scrollX : Int
  scrollY : Int
  selectedElementIds : List String
deriving DecidableEq

/-- The reduced app-state projection persisted by `debouncedSave` in
`SharedView`: exactly background color, font family and grid size. -/
structure SavedAppState where
  viewBackgroundColor : String
  currentItemFontFamily : Nat
  gridSize : Nat
deriving DecidableEq

/-- The body sent to `api.updateSharedDrawing` by `debouncedSave`. -/
structure SavePayload where
  elements : List Element
  appState : SavedAppState
deriving DecidableEq

/-- The shared-drawing record as the client sees it (`drawing` state in
`SharedView`): only the fields the collaboration gate reads. -/
structure ClientDrawing where
  id : String
  permission : String
deriving DecidableEq

/-- The body of the function wrapped by `debounce` in `SharedView`
(`debouncedSave`): bail out unless a token and a drawing with edit permission
are present, otherwise persist the non-deleted elements and the reduced
app-state projection. Returns the request payload, or none when no request is
made. -/
def debouncedSaveBody (token : Option String) (drawing : Option ClientDrawing)
    (elements : List Element) (appState : AppState) : Option SavePayload :=
  match token, drawing with
  | some _, some dr =>
    if dr.permission != "edit" then none
    else some
      { elements := elements.filter (fun e => !e.isDeleted)
        appState :=
          { viewBackgroundColor := appState.viewBackgroundColor
            currentItemFontFamily := appState.currentItemFontFamily
            gridSize := appState.gridSize } }
  | _, _ => none

/-- Modelled from the spec: the `debounce` wrapper comes from the external
lodash library, not from this repository's sources. Per the spec, persistence
is debounced with a fixed delay "so bursts of edits produce a single write":
a timestamped call schedules an invocation `wait` ms later, and a further
call within the window resets the timer. Given the (time, argument) call
sequence, this returns the (time, argument) invocations that actually fire. -/
def debounceFire (wait : Nat) : List (Nat × α) → List (Nat × α)
  | [] => []
  | [(t, a)] => [(t + wait, a)]
  | (t, a) :: (t2, b) :: rest =>
    if t2 ≤ t + wait then debounceFire wait ((t2, b) :: rest)
    else (t + wait, a) :: debounceFire wait ((t2, b) :: rest)

/-- C8: every persistence call carries only non-tombstoned elements plus the
reduced app-state projection (background color, font family, grid size — the
`SavedAppState` type has no other field), and a burst of edit calls whose
consecutive gaps stay within the debounce window produces exactly one
invocation, carrying the final call's arguments. -/
theorem autosave_projection_and_single_write :
    (∀ (token : Option String) (drawing : Option ClientDrawing)
        (elements : List Element) (appState : AppState) (p : SavePayload),
      debouncedSaveBody token drawing elements appState = some p →
      (∀ e ∈ p.elements, e.isDeleted = false) ∧
      (∀ e ∈ elements, e.isDeleted = false → e ∈ p.elements) ∧
      p.appState = { viewBackgroundColor := appState.viewBackgroundColor
                     currentItemFontFamily := appState.currentItemFontFamily
                     gridSize := appState.gridSize }) ∧
    (∀ (α : Type) (wait : Nat) (c : Nat × α) (calls : List (Nat × α)),
      List.Chain' (fun p q => q.1 ≤ p.1 + wait) (c :: calls) →
      ∃ last, (c :: calls).getLast? = some last ∧
        debounceFire wait (c :: calls) = [(last.1 + wait, last.2)]) := by
  constructor
  · intro token drawing elements appState p hp
    unfold debouncedSaveBody at hp
    split at hp
    · split at hp
      · cases hp
      · cases hp
        refine ⟨?_, ?_, rfl⟩
        · intro e he
          have := (List.mem_filter.mp he).2
          simpa using this
        · intro e he hdel
          exact List.mem_filter.mpr ⟨he, by simp [hdel]⟩
    · cases hp
  · intro α wait c calls
    induction calls generalizing c with
    | nil =>
      intro _
      obtain ⟨t, a⟩ := c
      exact ⟨(t, a), rfl, by simp [debounceFire]⟩
    | cons c2 rest ih =>
      intro hchain
      obtain ⟨t, a⟩ := c
      obtain ⟨t2, b⟩ := c2
      rw [List.chain'_cons] at hchain
      obtain ⟨last, h1, h2⟩ := ih (t2, b) hchain.2
      refine ⟨last, ?_, ?_⟩
      · rw [List.getLast?_cons_cons]
        exact h1
      · rw [debounceFire, if_pos hchain.1]
        exact h2

theorem autosave_projection_and_single_write_witness :
    (∀ e ∈ (Option.getD
        (debouncedSaveBody (some "tok") (some { id := "d1", permission := "edit" })
          [elA5, { elA5 with id := "dead", isDeleted := true }]
          { viewBackgroundColor := "#fff", currentItemFontFamily := 1, gridSize := 20,
            scrollX := 3, scrollY := 4, selectedElementIds := ["a"] })
        { elements := [], appState :=
            { viewBackgroundColor := "", currentItemFontFamily := 0, gridSize := 0 } }).elements,
      e.isDeleted = false) ∧
    (∃ last, ([(0, "s1"), (100, "s2"), (1500, "s3")] : List (Nat × String)).getLast? =
        some last ∧
      debounceFire 1500 [(0, "s1"), (100, "s2"), (1500, "s3")] =
        [(last.1 + 1500, last.2)]) := by
  constructor
  · intro e he
    have h := (autosave_projection_and_single_write.1 (some "tok")
      (some { id := "d1", permission := "edit" })
      [elA5, { elA5 with id := "dead", isDeleted := true }]
      { viewBackgroundColor := "#fff", currentItemFontFamily := 1, gridSize := 20,
        scrollX := 3, scrollY := 4, selectedElementIds := ["a"] } _ rfl).1
    exact h e he
  · exact autosave_projection_and_single_write.2 String 1500 (0, "s1")
      [(100, "s2"), (1500, "s3")] (by norm_num [List.chain'_cons])

/-- The observable effects of one `handleCanvasChange` call in `SharedView`:
whether a debounced persistence call was scheduled and whether the
element-broadcast path was invoked. -/
structure CanvasEffects where
  persistScheduled : Bool
  broadcastInvoked : Bool
deriving DecidableEq

/-- `handleCanvasChange` in `SharedView`: bail out when no drawing is loaded
or a remote-origin update is being applied (`isSyncing`); otherwise schedule
`debouncedSave` and invoke `broadcastChanges` only when the session's
permission is `"edit"`. -/
def handleCanvasChange (drawing : Option ClientDrawing) (isSyncing : Bool) :
    CanvasEffects :=
  match drawing with
  | none => { persistScheduled := false, broadcastInvoked := false }
  | some dr =>
    if isSyncing then { persistScheduled := false, broadcastInvoked := false }
    else if dr.permission == "edit" then
      { persistScheduled := true, broadcastInvoked := true }
    else { persistScheduled := false, broadcastInvoked := false }

/-- A stored drawing row as `PUT /shared/:token` reads and writes it; the
element/appState/files columns hold serialized text. -/
structure StoredDrawing where
  id : String
  name : String
  elements : String
  appState : String
  files : String
  version : Nat
deriving DecidableEq

/-- The share-link row consulted by the shared-drawing routes: permission,
active flag, and whether `expiresAt` is set and already past. -/
structure ShareLinkRec where
  permission : String
  isActive : Bool
  expired : Bool
deriving DecidableEq

/-- Outcome of the `PUT /shared/:token` handler: an HTTP error status with
its message, or the updated drawing echoed back. -/
inductive PutSharedResult where
  | httpError (status : Nat) (msg : String)
  | ok (d : StoredDrawing)
deriving DecidableEq

/-- The `PUT /shared/:token` route in `backend/src/index.ts`: look up the
link, reject missing/deactivated/expired links and any link whose permission
is not `"edit"`, otherwise overwrite the provided columns and bump the
server-side version. Returns the response together with the stored drawing
after the request (unchanged on every error path, which returns before
`prisma.drawing.update`). -/
def putSharedToken (link : Option ShareLinkRec) (stored : StoredDrawing)
    (bodyElements bodyAppState bodyFiles : Option String) :
    PutSharedResult × StoredDrawing :=
  match link with
  | none => (.httpError 404 "Shared link not found", stored)
  | some l =>
    if !l.isActive then (.httpError 403 "This share link has been deactivated", stored)
    else if l.expired then (.httpError 403 "This share link has expired", stored)
    else if l.permission != "edit" then
      (.httpError 403 "This share link is view-only", stored)
    else
      let d1 := match bodyElements with
        | some e => { stored with elements := e }
        | none => stored
      let d2 := match bodyAppState with
        | some a => { d1 with appState := a }
        | none => d1
      let d3 := match bodyFiles with
        | some f => { d2 with files := f }
        | none => d2
      let upd := { d3 with version := stored.version + 1 }
      (.ok upd, upd)

/-- C4: with `"view"` permission the client neither schedules persistence nor
broadcasts local edits (the `debouncedSave` body independently refuses as
well), and the server's shared-drawing update rejects every request through a
view-only link with an HTTP error, leaving the stored drawing unchanged. -/
theorem view_permission_gate :
    (∀ (dr : ClientDrawing) (isSyncing : Bool), dr.permission = "view" →
      handleCanvasChange (some dr) isSyncing =
        { persistScheduled := false, broadcastInvoked := false }) ∧
    (∀ (token : Option String) (dr : ClientDrawing) (elements : List Element)
        (appState : AppState), dr.permission = "view" →
      debouncedSaveBody token (some dr) elements appState = none) ∧
    (∀ (l : ShareLinkRec) (stored : StoredDrawing)
        (be ba bf : Option String), l.permission = "view" →
      (putSharedToken (some l) stored be ba bf).2 = stored ∧
      ∃ s m, (putSharedToken (some l) stored be ba bf).1 = .httpError s m) := by
  refine ⟨?_, ?_, ?_⟩
  · intro dr isSyncing hperm
    cases isSyncing <;> simp [handleCanvasChange, hperm]
  · intro token dr elements appState hperm
    cases token with
    | none => rfl
    | some tk => simp [debouncedSaveBody, hperm]
  · intro l stored be ba bf hperm
    have hne : (l.permission != "edit") = true := by simp [hperm]
    by_cases hact : l.isActive = true
    · by_cases hexp : l.expired = true
      · refine ⟨?_, 403, "This share link has expired", ?_⟩ <;>
          simp [putSharedToken, hact, hexp]
      · have hexp' : l.expired = false := by simpa using hexp
        refine ⟨?_, 403, "This share link is view-only", ?_⟩ <;>
          simp [putSharedToken, hact, hexp', hne]
    · have hact' : l.isActive = false := by simpa using hact
      refine ⟨?_, 403, "This share link has been deactivated", ?_⟩ <;>
        simp [putSharedToken, hact']

theorem view_permission_gate_witness :
    handleCanvasChange (some { id := "d1", permission := "view" }) false =
      { persistScheduled := false, broadcastInvoked := false } ∧
    debouncedSaveBody (some "tok") (some { id := "d1", permission := "view" }) [elA5]
      { viewBackgroundColor := "#fff", currentItemFontFamily := 1, gridSize := 20,
        scrollX := 0, scrollY := 0, selectedElementIds := [] } = none ∧
    (putSharedToken (some { permission := "view", isActive := true, expired := false })
      { id := "d1", name := "n", elements := "[]", appState := "{}", files := "{}",
        version := 7 } (some "[1]") none none).2 =
      { id := "d1", name := "n", elements := "[]", appState := "{}", files := "{}",
        version := 7 } := by
  refine ⟨?_, ?_, ?_⟩
  · exact view_permission_gate.1 { id := "d1", permission := "view" } false rfl
  · exact view_permission_gate.2.1 (some "tok") { id := "d1", permission := "view" }
      [elA5] _ rfl
  · exact (view_permission_gate.2.2
      { permission := "view", isActive := true, expired := false }
      { id := "d1", name := "n", elements := "[]", appState := "{}", files := "{}",
        version := 7 } (some "[1]") none none rfl).1

/-- The cursor rate limiter of `onPointerUpdate` in `SharedView`, run over a
sequence of pointer-event timestamps: an event emits a `cursor-move` iff
`now - lastCursorEmit > 33`, and an emission updates `lastCursorEmit`. The
result lists the timestamps at which a broadcast was emitted; dropped events
leave no trace (no queue). -/
def cursorEmitsAux (last : Nat) : List Nat → List Nat
  | [] => []
  | t :: rest =>
    if 33 < t - last then t :: cursorEmitsAux t rest
    else cursorEmitsAux last rest

/-- Cursor emissions of a full pointer-event sequence, starting from the
initial `lastCursorEmit = 0`. -/
def cursorEmits (events : List Nat) : List Nat := cursorEmitsAux 0 events

theorem cursorEmitsAux_gt (last : Nat) (l : List Nat) :
    ∀ x ∈ cursorEmitsAux last l, last + 33 < x := by
  induction l generalizing last with
  | nil => intro x hx; cases hx
  | cons t rest ih =>
    intro x hx
    unfold cursorEmitsAux at hx
    by_cases hc : 33 < t - last
    · rw [if_pos hc] at hx
      rcases List.mem_cons.mp hx with rfl | hx2
      · omega
      · have := ih t x hx2
        omega
    · rw [if_neg hc] at hx
      exact ih last x hx

theorem cursorEmitsAux_subset (last : Nat) (l : List Nat) :
    ∀ x ∈ cursorEmitsAux last l, x ∈ l := by
  induction l generalizing last with
  | nil => intro x hx; cases hx
  | cons t rest ih =>
    intro x hx
    unfold cursorEmitsAux at hx
    by_cases hc : 33 < t - last
    · rw [if_pos hc] at hx
      rcases List.mem_cons.mp hx with rfl | hx2
      · exact List.mem_cons_self x rest
      · exact List.mem_cons_of_mem t (ih t x hx2)
    · rw [if_neg hc] at hx
      exact List.mem_cons_of_mem t (ih last x hx)

theorem cursorEmitsAux_chain (last : Nat) (l : List Nat) :
    List.Chain' (fun a b => a + 33 < b) (cursorEmitsAux last l) := by
  induction l generalizing last with
  | nil => exact List.chain'_nil
  | cons t rest ih =>
    unfold cursorEmitsAux
    by_cases hc : 33 < t - last
    · rw [if_pos hc]
      rw [List.chain'_cons']
      refine ⟨?_, ih t⟩
      intro b hb
      exact cursorEmitsAux_gt t rest b (List.mem_of_mem_head? hb)
    · rw [if_neg hc]
      exact ih last

/-- C9: the client emits at most one `cursor-move` per 33 ms — an event
arriving 33 ms or less after the previous emission is dropped outright and
the throttle state is unchanged (never queued), consecutive emissions are
more than 33 ms apart, and any event burst spanning at most 50 ms (for
example 100 pointer moves in 50 ms) yields at most 2 broadcasts. -/
theorem cursor_throttle :
    (∀ (last t : Nat) (rest : List Nat), t ≤ last + 33 →
      cursorEmitsAux last (t :: rest) = cursorEmitsAux last rest) ∧
    (∀ events : List Nat, List.Chain' (fun a b => a + 33 < b) (cursorEmits events)) ∧
    (∀ (t0 : Nat) (events : List Nat),
      (∀ t ∈ events, t0 ≤ t ∧ t ≤ t0 + 50) → (cursorEmits events).length ≤ 2) := by
  refine ⟨?_, ?_, ?_⟩
  · intro last t rest hle
    have hc : ¬ 33 < t - last := by omega
    simp [cursorEmitsAux, hc]
  · intro events
    exact cursorEmitsAux_chain 0 events
  · intro t0 events hspan
    rcases hemits : cursorEmits events with _ | ⟨a, _ | ⟨b, _ | ⟨c, rest⟩⟩⟩
    · simp
    · simp
    · simp
    · exfalso
      have hchain := cursorEmitsAux_chain 0 events
      rw [cursorEmits] at hemits
      rw [hemits, List.chain'_cons, List.chain'_cons] at hchain
      have hab : a + 33 < b := hchain.1
      have hbc : b + 33 < c := hchain.2.1
      have hasub : a ∈ events := by
        refine cursorEmitsAux_subset 0 events a ?_
        rw [hemits]
        exact List.mem_cons_self a _
      have hcsub : c ∈ events := by
        refine cursorEmitsAux_subset 0 events c ?_
        rw [hemits]
        exact List.mem_cons_of_mem a (List.mem_cons_of_mem b (List.mem_cons_self c rest))
      have h1 := hspan a hasub
      have h2 := hspan c hcsub
      omega

/-- 100 pointer events inside one 50 ms span for the C9 witness: timestamps
1000, 1000, 1001, 1001, ..., 1049, 1049. -/
def burst100 : List Nat := (List.range 100).map (fun i => 1000 + i / 2)

theorem cursor_throttle_witness :
    cursorEmitsAux 500 (530 :: burst100) = cursorEmitsAux 500 burst100 ∧
    (cursorEmits burst100).length ≤ 2 := by
  constructor
  · exact cursor_throttle.1 500 530 burst100 (by norm_num)
  · exact cursor_throttle.2.2 1000 burst100 (by decide)

/-- A room participant on the server (`SocketUser` in `backend/src/index.ts`):
the client identity plus the connection's socket id and the activity flag. -/
structure SocketUser where
  id : String
  name : String
  initials : String
  color : String
  socketId : String
  isActive : Bool
deriving DecidableEq

/-- The identity a client sends with `join-room`
(`Omit<SocketUser, "socketId" | "isActive">`). -/
structure UserInfo where
  id : String
  name : String
  initials : String
  color : String
deriving DecidableEq

/-- A relayed wire payload: the handlers only read `drawingId` and forward
the object untouched, so the remaining fields are opaque. -/
structure WireData where
  drawingId : String
  rest : Nat
deriving DecidableEq

/-- Payloads the server emits. -/
inductive Payload where
  | presence (users : List SocketUser)
  | cursorData (d : WireData)
  | elementData (d : WireData)
deriving DecidableEq

/-- An emission: `io.to(roomId)` reaches every room member including the
sender's socket, `socket.to(roomId)` (also `socket.volatile.to`) reaches
every member except the sender. -/
inductive EmitEv where
  | toRoom (roomId : String) (p : Payload)
  | toRoomExceptSender (roomId : String) (p : Payload)
deriving DecidableEq

/-- The server's room registry `roomUsers : Map<string, SocketUser[]>`,
with `none` for an absent key. -/
def RoomState := String → Option (List SocketUser)

/-- The Socket.IO messages handled by the connection handler that the claims
concern. -/
inductive Msg where
  | joinRoom (drawingId : String) (user : UserInfo)
  | cursorMove (d : WireData)
  | elementUpdate (d : WireData)
  | userActivity (drawingId : String) (isActive : Bool)

/-- `users.find(u => u.socketId === socket.id)` followed by the in-place
`user.isActive = isActive` mutation: update the first participant whose
socketId matches, leave everything else untouched. -/
def setActivityFirst (sock : String) (act : Bool) : List SocketUser → List SocketUser
  | [] => []
  | u :: rest =>
    if u.socketId == sock then { u with isActive := act } :: rest
    else u :: setActivityFirst sock act rest

/-- The branch of the `user-activity` handler on the result of the room
lookup: if the room exists and holds a participant with the sender's socket
id, flip that participant's `isActive` and broadcast the roster to the whole
room; otherwise do nothing. -/
def userActivityCore (rooms : RoomState) (roomId : String) (sock : String)
    (act : Bool) : Option (List SocketUser) → RoomState × List EmitEv
  | none => (rooms, [])
  | some users =>
    if users.any (fun u => u.socketId == sock) then
      (fun r => if r == roomId then some (setActivityFirst sock act users)
        else rooms r,
       [.toRoom roomId (.presence (setActivityFirst sock act users))])
    else (rooms, [])

/-- The `user-activity` handler in `backend/src/index.ts`: look up
`roomUsers.get("drawing_" + drawingId)` and dispatch on the result. -/
def userActivityStep (sock : String) (rooms : RoomState) (drawingId : String)
    (act : Bool) : RoomState × List EmitEv :=
  userActivityCore rooms ("drawing_" ++ drawingId) sock act
    (rooms ("drawing_" ++ drawingId))

/-- The new room roster built by the `join-room` handler: the previous
participants minus any entry with the joining user's id, plus the fresh
participant appended. -/
def joinRoster (rooms : RoomState) (drawingId : String) (u : UserInfo)
    (sock : String) : List SocketUser :=
  ((rooms ("drawing_" ++ drawingId)).getD []).filter (fun x => x.id != u.id) ++
    [{ id := u.id, name := u.name, initials := u.initials, color := u.color,
       socketId := sock, isActive := true }]

/-- The Socket.IO connection handler of `backend/src/index.ts`, one message
at a time: `join-room` replaces any same-id participant and broadcasts the
roster to the whole room; `cursor-move` and `element-update` relay the data
verbatim to the room minus the sender; `user-activity` updates the matching
participant's activity flag. -/
def serverStep (sock : String) (rooms : RoomState) : Msg → RoomState × List EmitEv
  | .joinRoom drawingId user =>
    (fun r => if r == "drawing_" ++ drawingId
        then some (joinRoster rooms drawingId user sock) else rooms r,
     [.toRoom ("drawing_" ++ drawingId)
        (.presence (joinRoster rooms drawingId user sock))])
  | .cursorMove d =>
    (rooms, [.toRoomExceptSender ("drawing_" ++ d.drawingId) (.cursorData d)])
  | .elementUpdate d =>
    (rooms, [.toRoomExceptSender ("drawing_" ++ d.drawingId) (.elementData d)])
  | .userActivity drawingId act => userActivityStep sock rooms drawingId act

/-- C6: after a `join-room`, the room holds exactly one participant with the
joining user's id — the fresh entry with the sender's socket id and
`isActive = true`, any stale entry having been removed — and a single
`presence-update` carrying the new full roster goes to the whole room, the
joiner included (`io.to`, not `socket.to`). -/
theorem join_room_spec (sock : String) (rooms : RoomState) (d : String)
    (u : UserInfo) :
    ∃ roster,
      (serverStep sock rooms (.joinRoom d u)).1 ("drawing_" ++ d) = some roster ∧
      roster.filter (fun x => x.id == u.id) =
        [{ id := u.id, name := u.name, initials := u.initials, color := u.color,
           socketId := sock, isActive := true }] ∧
      (serverStep sock rooms (.joinRoom d u)).2 =
        [.toRoom ("drawing_" ++ d) (.presence roster)] := by
  refine ⟨joinRoster rooms d u sock, ?_, ?_, rfl⟩
  · show (if ("drawing_" ++ d) == ("drawing_" ++ d) then _ else _) = _
    rw [if_pos (by simp)]
  · unfold joinRoster
    rw [List.filter_append]
    have hnil : (((rooms ("drawing_" ++ d)).getD []).filter
        (fun x => x.id != u.id)).filter (fun x => x.id == u.id) = [] := by
      rw [List.filter_eq_nil_iff]
      intro x hx
      have h2 := (List.mem_filter.mp hx).2
      simp only [bne_iff_ne, ne_eq] at h2
      simp [h2]
    rw [hnil, List.nil_append]
    simp

/-- C7: `cursor-move` and `element-update` leave the room registry untouched
and produce exactly one emission — the unmodified payload, sent to the
corresponding drawing room excluding the sender. -/
theorem relay_verbatim (sock : String) (rooms : RoomState) (d : WireData) :
    serverStep sock rooms (.cursorMove d) =
      (rooms, [.toRoomExceptSender ("drawing_" ++ d.drawingId) (.cursorData d)]) ∧
    serverStep sock rooms (.elementUpdate d) =
      (rooms, [.toRoomExceptSender ("drawing_" ++ d.drawingId) (.elementData d)]) :=
  ⟨rfl, rfl⟩

/-- `isActive` erased to a fixed value, for stating that two participant
lists agree on everything except activity flags. -/
def stripActive (u : SocketUser) : SocketUser := { u with isActive := true }

theorem setActivityFirst_strip (sock : String) (act : Bool)
    (users : List SocketUser) :
    (setActivityFirst sock act users).map stripActive = users.map stripActive := by
  induction users with
  | nil => rfl
  | cons v t ih =>
    unfold setActivityFirst
    by_cases hv : (v.socketId == sock) = true
    · rw [if_pos hv]
      simp only [List.map_cons]
      rfl
    · rw [if_neg hv]
      simp only [List.map_cons, ih]

theorem setActivityFirst_other (sock : String) (act : Bool)
    (users : List SocketUser) :
    ∀ (i : Nat) (u : SocketUser), users[i]? = some u → u.socketId ≠ sock →
      (setActivityFirst sock act users)[i]? = some u := by
  induction users with
  | nil => intro i u hu; cases i <;> cases hu
  | cons v t ih =>
    intro i u hu hne
    unfold setActivityFirst
    by_cases hv : (v.socketId == sock) = true
    · rw [if_pos hv]
      cases i with
      | zero =>
        simp only [List.getElem?_cons_zero, Option.some.injEq] at hu
        subst hu
        exact absurd (by simpa using hv) hne
      | succ j =>
        simpa using hu
    · rw [if_neg hv]
      cases i with
      | zero => simpa using hu
      | succ j =>
        simp only [List.getElem?_cons_succ] at hu ⊢
        exact ih j u hu hne

theorem setActivityFirst_hit (sock : String) (act : Bool)
    (users : List SocketUser) :
    users.any (fun u => u.socketId == sock) = true →
    ∃ (i : Nat) (u : SocketUser), users[i]? = some u ∧ u.socketId = sock ∧
      (setActivityFirst sock act users)[i]? = some { u with isActive := act } := by
  induction users with
  | nil => intro h; simp at h
  | cons v t ih =>
    intro hany
    unfold setActivityFirst
    by_cases hv : (v.socketId == sock) = true
    · refine ⟨0, v, by simp, by simpa using hv, ?_⟩
      rw [if_pos hv]
      simp
    · rw [List.any_cons, Bool.or_eq_true] at hany
      rcases hany with hv2 | ht
      · exact absurd hv2 hv
      · obtain ⟨i, u, hu, hs, hset⟩ := ih ht
        refine ⟨i + 1, u, by simpa using hu, hs, ?_⟩
        rw [if_neg hv]
        simpa using hset

/-- C10: a `user-activity` message only flips the `isActive` flag of the
participant in the named room whose socket id is the sender's — other rooms,
the room's membership and every other participant field are unchanged — and
when the room is absent or holds no participant with the sender's socket id,
the registry is completely unchanged and nothing is emitted. -/
theorem user_activity_frame (sock : String) (rooms : RoomState) (d : String)
    (act : Bool) :
    (∀ r : String, r ≠ "drawing_" ++ d →
      (serverStep sock rooms (.userActivity d act)).1 r = rooms r) ∧
    (∀ users : List SocketUser, rooms ("drawing_" ++ d) = some users →
      users.any (fun u => u.socketId == sock) = true →
      ∃ users2,
        (serverStep sock rooms (.userActivity d act)).1 ("drawing_" ++ d) =
          some users2 ∧
        users2.map stripActive = users.map stripActive ∧
        (∀ (i : Nat) (u : SocketUser), users[i]? = some u → u.socketId ≠ sock →
          users2[i]? = some u) ∧
        (∃ (i : Nat) (u : SocketUser), users[i]? = some u ∧ u.socketId = sock ∧
          users2[i]? = some { u with isActive := act }) ∧
        (serverStep sock rooms (.userActivity d act)).2 =
          [.toRoom ("drawing_" ++ d) (.presence users2)]) ∧
    (rooms ("drawing_" ++ d) = none →
      (∀ r, (serverStep sock rooms (.userActivity d act)).1 r = rooms r) ∧
      (serverStep sock rooms (.userActivity d act)).2 = []) ∧
    (∀ users, rooms ("drawing_" ++ d) = some users →
      users.any (fun u => u.socketId == sock) = false →
      (∀ r, (serverStep sock rooms (.userActivity d act)).1 r = rooms r) ∧
      (serverStep sock rooms (.userActivity d act)).2 = []) := by
  have hstep : serverStep sock rooms (.userActivity d act) =
      userActivityCore rooms ("drawing_" ++ d) sock act
        (rooms ("drawing_" ++ d)) := rfl
  refine ⟨?_, ?_, ?_, ?_⟩
  · intro r hr
    rw [hstep]
    cases hR : rooms ("drawing_" ++ d) with
    | none => rw [userActivityCore]
    | some users =>
      rw [userActivityCore]
      by_cases hany : users.any (fun u => u.socketId == sock) = true
      · rw [if_pos hany]
        show (if (r == "drawing_" ++ d) then _ else rooms r) = rooms r
        rw [if_neg (by simpa using hr)]
      · rw [if_neg hany]
  · intro users hsome hany
    refine ⟨setActivityFirst sock act users, ?_,
      setActivityFirst_strip sock act users,
      setActivityFirst_other sock act users,
      setActivityFirst_hit sock act users hany, ?_⟩
    · rw [hstep, hsome, userActivityCore, if_pos hany]
      show (if ("drawing_" ++ d) == ("drawing_" ++ d) then _ else _) = _
      rw [if_pos (by simp)]
    · rw [hstep, hsome, userActivityCore, if_pos hany]
  · intro hnone
    rw [hstep, hnone, userActivityCore]
    exact ⟨fun r => rfl, rfl⟩
  · intro users hsome hany
    rw [hstep, hsome, userActivityCore, if_neg (by simp [hany])]
    exact ⟨fun r => rfl, rfl⟩

/-- First participant of the C10 witness room, on socket "s1". -/
def userS1 : SocketUser :=
  { id := "u1", name := "A", initials := "A", color := "c1",
    socketId := "s1", isActive := true }

/-- Second participant of the C10 witness room, on socket "s2". -/
def userS2 : SocketUser :=
  { id := "u2", name := "B", initials := "B", color := "c2",
    socketId := "s2", isActive := true }

/-- Registry of the C10 witness: one room for drawing "d" with both users. -/
def rooms0 : RoomState := fun r =>
  if r == "drawing_d" then some [userS1, userS2] else none

theorem user_activity_frame_witness :
    ∃ users2,
      (serverStep "s2" rooms0 (.userActivity "d" false)).1 ("drawing_" ++ "d") =
        some users2 ∧
      users2.map stripActive = [userS1, userS2].map stripActive ∧
      (∀ (i : Nat) (u : SocketUser), [userS1, userS2][i]? = some u →
        u.socketId ≠ "s2" → users2[i]? = some u) ∧
      (∃ (i : Nat) (u : SocketUser), [userS1, userS2][i]? = some u ∧
        u.socketId = "s2" ∧ users2[i]? = some { u with isActive := false }) ∧
      (serverStep "s2" rooms0 (.userActivity "d" false)).2 =
        [.toRoom ("drawing_" ++ "d") (.presence users2)] :=
  (user_activity_frame "s2" rooms0 "d" false).2.1 [userS1, userS2]
    (by decide) (by decide)
